import Mathlib

/-!
Shallow embedding of the circular-navigation core of
`wp-hierarchical-d3-navigation`, together with theorems settling the
frozen claims about its specification.

The embedding follows the JavaScript sources:
* `src/js/circular-navigation/utils/dom.js` — `calculateAverageAngle`,
  `processDepthNodes` (radial layout pass);
* `src/js/circular-navigation/visualization/NodeManager.js` — `isActiveNode`;
* `src/js/circular-navigation/visualization/PathManager.js` — `isActivePath`;
* `src/js/circular-navigation/core/CircularNavManager.js` — `handleNodeClick`;
* the state/cache/display managers — `StateManager`, `CacheManager`
  (`get`, `set`, `cleanup`, `processPreloadQueue`, `getBatch`),
  `DisplayManager` (`calculateDimensions`, `handleResize`,
  `hasSignificantChanges`).

Angles and dimensions are modelled over `ℝ`; timestamps, ids and
content payloads over `ℕ`; JS `Map`s as association lists in insertion
order; `async` methods as explicit step functions on the manager state.
-/

namespace CircNav

/-! ### Geometry utilities (`utils/dom.js`) -/

/-- JS `%` on numbers: remainder truncated toward zero,
`a % b = a - b * trunc(a / b)`. -/
noncomputable def jsMod (a b : ℝ) : ℝ :=
  a - b * (if 0 ≤ a / b then (⌊a / b⌋ : ℤ) else (⌈a / b⌉ : ℤ))

/-- `Math.min(...angles)` over the non-empty array `a :: l`. -/
noncomputable def listMin (a : ℝ) (l : List ℝ) : ℝ := l.foldl min a

/-- `Math.max(...angles)` over the non-empty array `a :: l`. -/
noncomputable def listMax (a : ℝ) (l : List ℝ) : ℝ := l.foldl max a

/-- `calculateAverageAngle` from `utils/dom.js` (lines 277–286):
takes `min`/`max` of the angles; when `max - min > π` returns
`(min + max + 2π) / 2 % (2π)`, otherwise `(min + max) / 2`.
(On the empty array the JS code produces `NaN`; every use site passes a
non-empty array, and all theorems below are about non-empty input.) -/
noncomputable def calculateAverageAngle : List ℝ → ℝ
  | [] => 0
  | a :: l =>
    let minAngle := listMin a l
    let maxAngle := listMax a l
    if maxAngle - minAngle > Real.pi then
      jsMod ((minAngle + maxAngle + 2 * Real.pi) / 2) (2 * Real.pi)
    else
      (minAngle + maxAngle) / 2

theorem listMin_le_init : ∀ (l : List ℝ) (a : ℝ), listMin a l ≤ a
  | [], a => le_refl a
  | b :: l, a => le_trans (listMin_le_init l (min a b)) (min_le_left a b)

theorem listMin_le_mem : ∀ (l : List ℝ) (a x : ℝ), x ∈ l → listMin a l ≤ x
  | b :: l, a, x, hx => by
    rcases List.mem_cons.1 hx with h | h
    · subst h
      exact le_trans (listMin_le_init l (min a x)) (min_le_right a x)
    · exact listMin_le_mem l (min a b) x h

theorem listMin_le (a : ℝ) (l : List ℝ) : ∀ x ∈ a :: l, listMin a l ≤ x := by
  intro x hx
  rcases List.mem_cons.1 hx with h | h
  · exact h ▸ listMin_le_init l a
  · exact listMin_le_mem l a x h

theorem listMin_mem : ∀ (l : List ℝ) (a : ℝ), listMin a l ∈ a :: l
  | [], a => by simp [listMin]
  | b :: l, a => by
    have h := listMin_mem l (min a b)
    show listMin (min a b) l ∈ a :: b :: l
    rcases List.mem_cons.1 h with h1 | h1
    · rw [h1]
      rcases min_choice a b with hm | hm <;> rw [hm] <;> simp
    · exact List.mem_cons_of_mem _ (List.mem_cons_of_mem _ h1)

theorem le_listMax_init : ∀ (l : List ℝ) (a : ℝ), a ≤ listMax a l
  | [], a => le_refl a
  | b :: l, a => le_trans (le_max_left a b) (le_listMax_init l (max a b))

theorem le_listMax_mem : ∀ (l : List ℝ) (a x : ℝ), x ∈ l → x ≤ listMax a l
  | b :: l, a, x, hx => by
    rcases List.mem_cons.1 hx with h | h
    · subst h
      exact le_trans (le_max_right a x) (le_listMax_init l (max a x))
    · exact le_listMax_mem l (max a b) x h

theorem le_listMax (a : ℝ) (l : List ℝ) : ∀ x ∈ a :: l, x ≤ listMax a l := by
  intro x hx
  rcases List.mem_cons.1 hx with h | h
  · exact h ▸ le_listMax_init l a
  · exact le_listMax_mem l a x h

theorem listMax_mem : ∀ (l : List ℝ) (a : ℝ), listMax a l ∈ a :: l
  | [], a => by simp [listMax]
  | b :: l, a => by
    have h := listMax_mem l (max a b)
    show listMax (max a b) l ∈ a :: b :: l
    rcases List.mem_cons.1 h with h1 | h1
    · rw [h1]
      rcases max_choice a b with hm | hm <;> rw [hm] <;> simp
    · exact List.mem_cons_of_mem _ (List.mem_cons_of_mem _ h1)

/-! ### Radial layout pass (`processDepthNodes` in `utils/dom.js`) -/

/-- A depth-2 (outer ring) node: identity and its angular position `x`
(as set by the preceding `d3.tree` pass and overwritten by
`processDepthNodes`). -/
structure SNode where
  id : ℕ
  x : ℝ

/-- A depth-1 (primary ring) node with its owned depth-2 children. -/
structure PNode where
  id : ℕ
  x : ℝ
  children : List SNode

/-- The depth-0 root with its owned depth-1 children. -/
structure HRoot where
  x : ℝ
  children : List PNode

/-- Total number of depth-2 nodes (`depthTwoNodes.length`). -/
def d2Count (root : HRoot) : ℕ :=
  (root.children.map (fun p => p.children.length)).sum

/-- The flattened list of depth-2 angles, in the traversal order used by
`root.descendants().filter(d => d.depth === 2)`: siblings grouped under
their parent, parents in root order. -/
def d2Angles (ps : List PNode) : List ℝ :=
  (ps.map (fun p => p.children.map SNode.x)).flatten

/-- `depthTwoNodes.forEach((node, i) => { node.x = i * angleStep })`,
restricted to one sibling row starting at running index `off`. -/
noncomputable def assignRow (step : ℝ) : ℕ → List SNode → List SNode
  | _, [] => []
  | off, c :: cs => { c with x := (off : ℝ) * step } :: assignRow step (off + 1) cs

/-- The depth-2 half of `processDepthNodes`: number all depth-2 nodes
consecutively across the depth-1 parents and give node `i` the angle
`i * step`. -/
noncomputable def assignD2 (step : ℝ) : ℕ → List PNode → List PNode
  | _, [] => []
  | off, p :: ps =>
    { p with children := assignRow step off p.children } ::
      assignD2 step (off + p.children.length) ps

/-- The depth-1 half of `processDepthNodes`: every depth-1 node with
children gets `calculateAverageAngle` of its children's angles; childless
depth-1 nodes keep their `d3.tree` angle. -/
noncomputable def assignD1 : List PNode → List PNode
  | [] => []
  | p :: ps =>
    (if p.children.isEmpty then p
     else { p with x := calculateAverageAngle (p.children.map SNode.x) }) :: assignD1 ps

/-- `processDepthNodes` from `utils/dom.js` (lines 251–271): when there is
at least one depth-2 node, space all depth-2 nodes by
`angleStep = 2π / N`; then reposition each depth-1 node with children at
the wrap-aware average of its children's angles. -/
noncomputable def processDepthNodes (root : HRoot) : HRoot :=
  let n := d2Count root
  let cs := if 0 < n then assignD2 (2 * Real.pi / n) 0 root.children else root.children
  { root with children := assignD1 cs }

theorem range'_split (m : ℕ) : ∀ (s n : ℕ),
    List.range' s (m + n) = List.range' s m ++ List.range' (s + m) n := by
  induction m with
  | zero => intro s n; simp
  | succ m ih =>
    intro s n
    have e1 : m + 1 + n = (m + n) + 1 := by omega
    have e2 : s + (m + 1) = (s + 1) + m := by omega
    rw [e1]
    show s :: List.range' (s + 1) (m + n) =
      (s :: List.range' (s + 1) m) ++ List.range' (s + (m + 1)) n
    rw [ih (s + 1) n, e2]
    simp [List.cons_append]

theorem assignRow_map_x (step : ℝ) : ∀ (cs : List SNode) (off : ℕ),
    (assignRow step off cs).map SNode.x =
      (List.range' off cs.length).map (fun i : ℕ => (i : ℝ) * step) := by
  intro cs
  induction cs with
  | nil => intro off; simp [assignRow]
  | cons c cs ih =>
    intro off
    have h : List.range' off (cs.length + 1) = off :: List.range' (off + 1) cs.length := rfl
    simp only [assignRow, List.map_cons, List.length_cons, h, ih (off + 1)]

theorem d2Angles_assignD2 (step : ℝ) : ∀ (ps : List PNode) (off : ℕ),
    d2Angles (assignD2 step off ps) =
      (List.range' off ((ps.map (fun p => p.children.length)).sum)).map
        (fun i : ℕ => (i : ℝ) * step) := by
  intro ps
  induction ps with
  | nil => intro off; simp [d2Angles, assignD2]
  | cons p ps ih =>
    intro off
    simp only [assignD2, d2Angles, List.map_cons, List.flatten_cons, List.sum_cons]
    rw [range'_split p.children.length off, List.map_append, assignRow_map_x]
    have hrest : ((assignD2 step (off + p.children.length) ps).map
        (fun q => q.children.map SNode.x)).flatten =
        d2Angles (assignD2 step (off + p.children.length) ps) := rfl
    rw [hrest, ih (off + p.children.length)]

theorem d2Angles_assignD1 : ∀ (ps : List PNode), d2Angles (assignD1 ps) = d2Angles ps := by
  intro ps
  induction ps with
  | nil => rfl
  | cons p ps ih =>
    simp only [assignD1, d2Angles, List.map_cons, List.flatten_cons]
    have hch : (if p.children.isEmpty then p
        else { p with x := calculateAverageAngle (p.children.map SNode.x) }).children
        = p.children := by
      by_cases h : p.children.isEmpty <;> simp [h]
    rw [hch]
    exact congrArg (fun t => List.map SNode.x p.children ++ t) ih

theorem assignD1_avg : ∀ (ps : List PNode), ∀ p ∈ assignD1 ps, p.children ≠ [] →
    p.x = calculateAverageAngle (p.children.map SNode.x) := by
  intro ps
  induction ps with
  | nil => intro p hp; simp [assignD1] at hp
  | cons q ps ih =>
    intro p hp hne
    rcases List.mem_cons.1 hp with h | h
    · subst h
      by_cases hq : q.children.isEmpty
      · rw [if_pos hq] at hne ⊢
        exact absurd (List.isEmpty_iff.1 hq) hne
      · rw [if_neg hq] at hne ⊢
    · exact ih p h hne

/-! ### Claims C1 and C2 -/

/-- **C1** counterexample: on the angles `[0, 1, 3]` (whose spread
`3 - 0` is below `π`), `calculateAverageAngle` returns the midpoint of
the extremes, `3 / 2`, and not the arithmetic mean of the whole
sequence, which is `4 / 3`.  So the claim that the function returns the
arithmetic mean of the whole sequence whenever `max - min ≤ π` is false
on the code. -/
theorem C1_counterexample :
    calculateAverageAngle [0, 1, 3] = 3 / 2 ∧
    ((0 : ℝ) + 1 + 3) / 3 = 4 / 3 ∧ (3 / 2 : ℝ) ≠ 4 / 3 := by
  refine ⟨?_, by norm_num, by norm_num⟩
  have hmin : listMin (0 : ℝ) [1, 3] = 0 := by
    show min (min (0 : ℝ) 1) 3 = 0
    rw [min_eq_left (by norm_num : (0:ℝ) ≤ 1), min_eq_left (by norm_num : (0:ℝ) ≤ 3)]
  have hmax : listMax (0 : ℝ) [1, 3] = 3 := by
    show max (max (0 : ℝ) 1) 3 = 3
    rw [max_eq_right (by norm_num : (0:ℝ) ≤ 1), max_eq_right (by norm_num : (1:ℝ) ≤ 3)]
  have hcond : ¬ (listMax (0:ℝ) [1, 3] - listMin (0:ℝ) [1, 3] > Real.pi) := by
    rw [hmin, hmax]
    push_neg
    nlinarith [Real.pi_gt_three]
  show calculateAverageAngle ((0 : ℝ) :: [1, 3]) = 3 / 2
  simp only [calculateAverageAngle]
  rw [if_neg hcond, hmin, hmax]
  norm_num

/-- **C1** (amended): for every non-empty sequence of angles,
`calculateAverageAngle` takes the least element `m` and the greatest
element `M` of the sequence (characterized below) and returns the
midpoint `(m + M) / 2` — not the arithmetic mean of the whole
sequence — when `M - m ≤ π`, and `(m + M + 2π) / 2 % (2π)` when
`M - m > π`; in particular `calculateAverageAngle [0.1, 2π - 0.1]`
is exactly `0`, not `π`. -/
theorem C1_amendedTheorem :
    (∀ (a : ℝ) (l : List ℝ),
      (listMin a l ∈ a :: l ∧ ∀ x ∈ a :: l, listMin a l ≤ x) ∧
      (listMax a l ∈ a :: l ∧ ∀ x ∈ a :: l, x ≤ listMax a l) ∧
      (listMax a l - listMin a l ≤ Real.pi →
        calculateAverageAngle (a :: l) = (listMin a l + listMax a l) / 2) ∧
      (Real.pi < listMax a l - listMin a l →
        calculateAverageAngle (a :: l) =
          jsMod ((listMin a l + listMax a l + 2 * Real.pi) / 2) (2 * Real.pi))) ∧
    calculateAverageAngle [1 / 10, 2 * Real.pi - 1 / 10] = 0 := by
  constructor
  · intro a l
    refine ⟨⟨listMin_mem l a, listMin_le a l⟩, ⟨listMax_mem l a, le_listMax a l⟩, ?_, ?_⟩
    · intro h
      simp only [calculateAverageAngle]
      rw [if_neg (not_lt.2 h)]
    · intro h
      simp only [calculateAverageAngle]
      rw [if_pos h]
  · have hpi := Real.pi_gt_three
    have hmin : listMin (1/10 : ℝ) [2 * Real.pi - 1/10] = 1/10 := by
      show min (1/10 : ℝ) (2 * Real.pi - 1/10) = 1/10
      exact min_eq_left (by nlinarith)
    have hmax : listMax (1/10 : ℝ) [2 * Real.pi - 1/10] = 2 * Real.pi - 1/10 := by
      show max (1/10 : ℝ) (2 * Real.pi - 1/10) = 2 * Real.pi - 1/10
      exact max_eq_right (by nlinarith)
    have hcond : listMax (1/10:ℝ) [2 * Real.pi - 1/10] -
        listMin (1/10:ℝ) [2 * Real.pi - 1/10] > Real.pi := by
      rw [hmin, hmax]
      nlinarith
    simp only [calculateAverageAngle]
    rw [if_pos hcond, hmin, hmax]
    have harg : ((1:ℝ)/10 + (2 * Real.pi - 1/10) + 2 * Real.pi) / 2 = 2 * Real.pi := by
      ring
    rw [harg]
    unfold jsMod
    rw [div_self (ne_of_gt Real.two_pi_pos)]
    rw [if_pos (by norm_num : (0:ℝ) ≤ 1)]
    rw [Int.floor_one]
    push_cast
    ring

/-- Witness for `C1_amendedTheorem`: at the concrete input `[2, 3]` the
spread `3 - 2` is below `π` and the function returns the midpoint
`5 / 2`. -/
theorem C1_amendedWitness : calculateAverageAngle [(2:ℝ), 3] = 5 / 2 := by
  have hminv : listMin (2:ℝ) [3] = 2 := by
    show min (2:ℝ) 3 = 2
    exact min_eq_left (by norm_num)
  have hmaxv : listMax (2:ℝ) [3] = 3 := by
    show max (2:ℝ) 3 = 3
    exact max_eq_right (by norm_num)
  have hle : listMax (2:ℝ) [3] - listMin (2:ℝ) [3] ≤ Real.pi := by
    rw [hminv, hmaxv]
    nlinarith [Real.pi_gt_three]
  have h := (C1_amendedTheorem.1 2 [3]).2.2.1 hle
  rw [h, hminv, hmaxv]
  norm_num

/-- **C2** (confirmed): for every hierarchy with `N ≥ 1` depth-2 nodes,
`processDepthNodes` gives the depth-2 node at index `i` of the
sibling-grouped traversal order the angle `i * (2π / N)` — uniformly
spaced over the full revolution regardless of the depth-1 parent — and
every depth-1 node with children ends at the wrap-aware average
(`calculateAverageAngle`) of its children's angles. -/
theorem C2_processDepthNodes (root : HRoot) (h : 1 ≤ d2Count root) :
    d2Angles (processDepthNodes root).children =
      (List.range (d2Count root)).map
        (fun i : ℕ => (i : ℝ) * (2 * Real.pi / (d2Count root : ℝ))) ∧
    ∀ p ∈ (processDepthNodes root).children, p.children ≠ [] →
      p.x = calculateAverageAngle (p.children.map SNode.x) := by
  constructor
  · have hch : (processDepthNodes root).children =
        assignD1 (if 0 < d2Count root then
          assignD2 (2 * Real.pi / (d2Count root : ℝ)) 0 root.children
        else root.children) := rfl
    rw [hch, if_pos (show 0 < d2Count root by omega), d2Angles_assignD1,
      d2Angles_assignD2, List.range_eq_range']
    rfl
  · intro p hp hne
    exact assignD1_avg _ p hp hne

/-- The spec §8 scenario hierarchy: a root with two primary children,
the first with three secondary children, the second with one. -/
noncomputable def exRoot : HRoot :=
  ⟨0, [⟨1, 0, [⟨3, 0⟩, ⟨4, 0⟩, ⟨5, 0⟩]⟩, ⟨2, 0, [⟨6, 0⟩]⟩]⟩

/-- Witness for `C2_processDepthNodes`: on the spec §8 scenario
hierarchy (`N = 4`), the four depth-2 angles are
`0, 2π/4, 2·2π/4, 3·2π/4`. -/
theorem C2_witness :
    d2Angles (processDepthNodes exRoot).children =
      (List.range 4).map (fun i : ℕ => (i : ℝ) * (2 * Real.pi / 4)) := by
  have hc : d2Count exRoot = 4 := rfl
  have h := (C2_processDepthNodes exRoot (by rw [hc]; norm_num)).1
  rw [hc] at h
  simpa using h

/-! ### Node and link classification
(`NodeManager.isActiveNode`, `PathManager.isActivePath`)

Nodes of the well-formed three-level hierarchy are modelled by a
reference type whose constructor fixes depth and parent, mirroring the
invariant that every depth-2 node's parent is depth-1 and every depth-1
node's parent is the root; JS `===` on node references is constructor
equality. -/

/-- A reference to a hierarchy node: the root, the `i`-th primary
(depth-1) node, or the `j`-th secondary (depth-2) child of primary
`i`. -/
inductive NodeRef where
  | root : NodeRef
  | prim : ℕ → NodeRef
  | sec : ℕ → ℕ → NodeRef
deriving DecidableEq, Repr

/-- `node.depth` of the d3 hierarchy. -/
def NodeRef.depth : NodeRef → ℕ
  | .root => 0
  | .prim _ => 1
  | .sec _ _ => 2

/-- `node.parent` of the d3 hierarchy (`null` for the root). -/
def NodeRef.parentOf : NodeRef → Option NodeRef
  | .root => none
  | .prim _ => some .root
  | .sec i _ => some (.prim i)

/-- `isActiveNode(node, selectedNode)` from `NodeManager.js`
(lines 120–125): with no selection, active iff `node.depth === 0`;
otherwise
`node === selectedNode || (selectedNode.parent && node === selectedNode.parent) || (node.depth === 0 && selectedNode)`
— the last disjunct is truthy for the root whenever any node is
selected. -/
def isActiveNode (node : NodeRef) (selectedNode : Option NodeRef) : Bool :=
  match selectedNode with
  | none => node.depth == 0
  | some s =>
    node == s ||
    (match s.parentOf with
     | some par => node == par
     | none => false) ||
    node.depth == 0

/-- `isSiblingNode(node, selectedNode)` from `NodeManager.js`. -/
def isSiblingNode (node : NodeRef) (selectedNode : Option NodeRef) : Bool :=
  match selectedNode with
  | none => false
  | some s =>
    if node.depth == 0 then false
    else node.parentOf == s.parentOf && node != s

/-- A link of the hierarchy: an ordered `(source, target)` pair of node
references. -/
structure NavLink where
  source : NodeRef
  target : NodeRef
deriving DecidableEq, Repr

/-- `isActivePath(link, selectedNode)` from `PathManager.js`
(lines 111–131): false without link or selection; all links active for a
root selection; for a depth-1 selection the root-to-selection link and
every link out of the selection; for a depth-2 selection
`link.target === selectedNode || (selectedNode.parent && link.source === selectedNode.parent) || (selectedNode.parent?.parent && link.source === selectedNode.parent.parent && link.target === selectedNode.parent)`. -/
def isActivePath (link : Option NavLink) (selectedNode : Option NodeRef) : Bool :=
  match link, selectedNode with
  | none, _ => false
  | some _, none => false
  | some l, some s =>
    if s.depth == 0 then true
    else if s.depth == 1 then
      (match s.parentOf with
       | some par => l.source == par && l.target == s
       | none => false) ||
      l.source == s
    else if s.depth == 2 then
      l.target == s ||
      (match s.parentOf with
       | some par => l.source == par
       | none => false) ||
      (match s.parentOf with
       | some par =>
         (match par.parentOf with
          | some gp => l.source == gp && l.target == par
          | none => false)
       | none => false)
    else false

/-! ### Claims C4 and C5 -/

/-- **C4** counterexample: with the depth-2 node `sec 0 0` selected, the
code classifies the root as active (`isActiveNode` returns `true` for
the depth-0 node), although the claim says only the selection itself is
active for a depth-2 selection. -/
theorem C4_counterexample :
    isActiveNode NodeRef.root (some (NodeRef.sec 0 0)) = true ∧
    isActiveNode (NodeRef.prim 0) (some (NodeRef.sec 0 0)) = true ∧
    NodeRef.root ≠ NodeRef.sec 0 0 ∧ NodeRef.prim 0 ≠ NodeRef.sec 0 0 := by
  decide

/-- **C4** (amended): for every selection, the active node set is: for
a depth-2 selection `sec i j`, exactly the selection, its parent
`prim i`, and the root; for a depth-1 selection `prim i`, exactly the
selection and the root; for a depth-0 selection (the root itself),
exactly the root; with no selection, exactly the root. -/
theorem C4_amendedTheorem (node : NodeRef) :
    (∀ i j, isActiveNode node (some (NodeRef.sec i j)) = true ↔
      (node = NodeRef.sec i j ∨ node = NodeRef.prim i ∨ node = NodeRef.root)) ∧
    (∀ i, isActiveNode node (some (NodeRef.prim i)) = true ↔
      (node = NodeRef.prim i ∨ node = NodeRef.root)) ∧
    (isActiveNode node (some NodeRef.root) = true ↔ node = NodeRef.root) ∧
    (isActiveNode node none = true ↔ node = NodeRef.root) := by
  refine ⟨fun i j => ?_, fun i => ?_, ?_, ?_⟩ <;>
    cases node <;>
    simp [isActiveNode, NodeRef.depth, NodeRef.parentOf]

/-- Witness for `C4_amendedTheorem`: concrete classifications with
`sec 0 1` selected, with `prim 2` selected, with the root selected, and
with no selection. -/
theorem C4_amendedWitness :
    isActiveNode NodeRef.root (some (NodeRef.sec 0 1)) = true ∧
    isActiveNode (NodeRef.prim 2) (some (NodeRef.prim 2)) = true ∧
    isActiveNode NodeRef.root (some NodeRef.root) = true ∧
    isActiveNode (NodeRef.sec 1 0) (some NodeRef.root) = false ∧
    isActiveNode (NodeRef.prim 1) none = false := by
  refine ⟨((C4_amendedTheorem NodeRef.root).1 0 1).mpr (by decide), ?_, ?_, ?_, ?_⟩
  · exact ((C4_amendedTheorem (NodeRef.prim 2)).2.1 2).mpr (by decide)
  · exact (C4_amendedTheorem NodeRef.root).2.2.1.mpr rfl
  · have h := (C4_amendedTheorem (NodeRef.sec 1 0)).2.2.1
    by_contra hcon
    simp only [Bool.not_eq_false] at hcon
    exact absurd (h.mp hcon) (by decide)
  · have h := (C4_amendedTheorem (NodeRef.prim 1)).2.2.2
    by_contra hcon
    simp only [Bool.not_eq_false] at hcon
    exact absurd (h.mp hcon) (by decide)

/-- **C5** counterexample: with the depth-2 node `sec 0 0` selected, the
link from its parent `prim 0` to the sibling `sec 0 1` is classified
active by the code, although the claim says no link from the selection's
parent to a sibling is active. -/
theorem C5_counterexample :
    isActivePath (some ⟨NodeRef.prim 0, NodeRef.sec 0 1⟩)
      (some (NodeRef.sec 0 0)) = true ∧
    NodeRef.sec 0 1 ≠ NodeRef.sec 0 0 := by
  decide

/-- **C5** (amended): for a depth-2 selection `sec i j`, a link is
active exactly when its target is the selection, or its source is the
selection's parent `prim i` (any target, so links from the parent to the
selection's siblings are active too), or it is the root-to-parent link.  -/
theorem C5_amendedTheorem (i j : ℕ) (l : NavLink) :
    isActivePath (some l) (some (NodeRef.sec i j)) = true ↔
      (l.target = NodeRef.sec i j ∨ l.source = NodeRef.prim i ∨
        (l.source = NodeRef.root ∧ l.target = NodeRef.prim i)) := by
  cases l with
  | mk s t =>
    simp only [isActivePath, NodeRef.depth, NodeRef.parentOf]
    simp [or_assoc]

/-- Witness for `C5_amendedTheorem`: with `sec 3 1` selected, the link
`prim 3 → sec 3 2` (a sibling link) is active. -/
theorem C5_amendedWitness :
    isActivePath (some ⟨NodeRef.prim 3, NodeRef.sec 3 2⟩)
      (some (NodeRef.sec 3 1)) = true :=
  (C5_amendedTheorem 3 1 ⟨NodeRef.prim 3, NodeRef.sec 3 2⟩).mpr (by decide)

/-! ### Selection handling (`CircularNavManager.handleNodeClick`,
`StateManager`) -/

/-- A JS value as it appears in a boolean (truthiness) context. -/
inductive JSVal where
  | undef : JSVal
  | boolean : Bool → JSVal
  | fnRef : JSVal
  | objRef : ℕ → JSVal
deriving DecidableEq

/-- JS truthiness: `undefined`/`null` and `false` are falsy; function
objects and object references are truthy. -/
def truthy : JSVal → Bool
  | .undef => false
  | .boolean b => b
  | .fnRef => true
  | .objRef _ => true

/-- The `StateManager`'s `state` object (the fields relevant to
selection; constructed with `selectedNode: null`, `previousNode: null`,
`isTransitioning: false`). -/
structure SMState where
  selectedNode : Option NodeRef
  previousNode : Option NodeRef
  isTransitioning : Bool
deriving DecidableEq

/-- The `StateManager` instance. Its own properties are `parent`,
`listeners` and `state`; `isTransitioning` is a class method on the
prototype. -/
structure StateMgr where
  state : SMState
deriving DecidableEq

/-- JS property access `stateManager.isTransitioning` (no call): the
instance has no own property of that name, so the lookup resolves to the
`isTransitioning() { return this.state.isTransitioning; }` method on the
class prototype and yields the function object — regardless of the
boolean flag `state.isTransitioning`. -/
def StateMgr.isTransitioningProp (_ : StateMgr) : JSVal := .fnRef

/-- Calling the method, `stateManager.isTransitioning()`, returns the
flag. -/
def StateMgr.isTransitioningCall (m : StateMgr) : Bool := m.state.isTransitioning

/-- The synchronous part of
`updateState({ selectedNode: node, isTransitioning: true })`: merge the
partial state into `this.state`; `handleStateChange` additionally sets
`previousNode` to the old selection when the selection changed and the
old selection was non-null. (The asynchronous continuation — preload,
visual update, and the final `isTransitioning: false` — happens after
suspension points and is not needed for the claims.) -/
def updateStateClick (m : StateMgr) (node : NodeRef) : StateMgr :=
  let oldSel := m.state.selectedNode
  { state :=
    { selectedNode := some node
      previousNode :=
        if some node ≠ oldSel ∧ oldSel.isSome then oldSel else m.state.previousNode
      isTransitioning := true } }

/-- The `CircularNavManager` (the field relevant to node clicks:
`this.state`, the `StateManager`). -/
structure NavMgr where
  state : StateMgr
deriving DecidableEq

/-- `handleNodeClick(event)` from `CircularNavManager.js`
(lines 134–142):
`if (!node || this.state.isTransitioning) return;` followed by
`this.state.updateState({ selectedNode: node, isTransitioning: true })`.
The guard tests the property `this.state.isTransitioning`, which is the
prototype method object (see `StateMgr.isTransitioningProp`), not the
flag. -/
def handleNodeClick (m : NavMgr) (eventNode : Option NodeRef) : NavMgr :=
  match eventNode with
  | none => m
  | some node =>
    if truthy m.state.isTransitioningProp then m
    else { m with state := updateStateClick m.state node }

/-! ### Claim C3 -/

/-- **C3**: the guard of `handleNodeClick` reads
`this.state.isTransitioning` without calling it; the lookup yields the
`StateManager`'s prototype method — a function object, hence truthy — so
every click returns early and the manager state never changes, even when
the transition flag is `false` (coordinator Idle).  Evaluated at the
failing input: a click on node `sec 0 0` while `isTransitioning` is
`false` and nothing is selected leaves the selection empty, where the
claim requires it to become the clicked node with `isTransitioning`
set. -/
theorem C3_handleNodeClick_noop (m : NavMgr) (eventNode : Option NodeRef) :
    handleNodeClick m eventNode = m := by
  cases eventNode with
  | none => rfl
  | some node => rfl

/-- Witness for `C3_handleNodeClick_noop`: the concrete failing input —
Idle coordinator (`isTransitioning = false`, no selection), click on
`sec 0 0` — produces no state change at all. -/
theorem C3_witness :
    handleNodeClick ⟨⟨⟨none, none, false⟩⟩⟩ (some (NodeRef.sec 0 0)) =
      ⟨⟨⟨none, none, false⟩⟩⟩ ∧
    (⟨⟨⟨none, none, false⟩⟩⟩ : NavMgr).state.isTransitioningCall = false :=
  ⟨C3_handleNodeClick_noop ⟨⟨⟨none, none, false⟩⟩⟩ (some (NodeRef.sec 0 0)), rfl⟩

/-! ### Content cache (`CacheManager`)

JS `Map`s are association lists in insertion order (keys unique in a
real `Map`); ids, timestamps and content payloads are naturals;
promises are identified by numeric tokens.  `async` methods are split at
their suspension points into explicit step functions. -/

/-- `Map.get(key)`. -/
def assocGet {α : Type} : List (ℕ × α) → ℕ → Option α
  | [], _ => none
  | (k, v) :: rest, id => if k = id then some v else assocGet rest id

/-- `Map.set(key, value)`: replace in place if the key exists, else
append (insertion order). -/
def assocSet {α : Type} : List (ℕ × α) → ℕ → α → List (ℕ × α)
  | [], id, v => [(id, v)]
  | (k, w) :: rest, id, v =>
    if k = id then (k, v) :: rest else (k, w) :: assocSet rest id v

/-- `Map.delete(key)`: remove the entry with that key, keeping order. -/
def assocDelete {α : Type} : List (ℕ × α) → ℕ → List (ℕ × α)
  | [], _ => []
  | (k, w) :: rest, id => if k = id then rest else (k, w) :: assocDelete rest id

theorem assocGet_assocSet_self {α : Type} :
    ∀ (l : List (ℕ × α)) (id : ℕ) (v : α), assocGet (assocSet l id v) id = some v
  | [], id, v => by simp [assocGet, assocSet]
  | (k, w) :: rest, id, v => by
    by_cases h : k = id <;>
      simp [assocGet, assocSet, h, assocGet_assocSet_self rest id v]

theorem assocGet_assocSet_ne {α : Type} :
    ∀ (l : List (ℕ × α)) (id k : ℕ) (v : α), k ≠ id →
      assocGet (assocSet l id v) k = assocGet l k
  | [], id, k, v, hne => by
    have h : ¬ id = k := fun h => hne h.symm
    simp [assocGet, assocSet, h]
  | (k0, w) :: rest, id, k, v, hne => by
    by_cases h : k0 = id
    · subst h
      have h2 : ¬ k0 = k := fun h2 => hne h2.symm
      simp [assocGet, assocSet, h2]
    · simp only [assocSet, if_neg h, assocGet]
      by_cases h2 : k0 = k <;> simp [h2, assocGet_assocSet_ne rest id k v hne]

theorem assocSet_keys_of_present {α : Type} :
    ∀ (l : List (ℕ × α)) (id : ℕ) (v w : α), assocGet l id = some w →
      (assocSet l id v).map Prod.fst = l.map Prod.fst
  | [], id, v, w, h => by simp [assocGet] at h
  | (k0, w0) :: rest, id, v, w, h => by
    by_cases hk : k0 = id
    · simp [assocSet, hk]
    · simp only [assocGet, if_neg hk] at h
      simp [assocSet, hk, assocSet_keys_of_present rest id v w h]

/-- A cache entry as stored by `CacheManager.set`:
`{ content, added, lastAccessed, size }`. -/
structure CacheEntry where
  content : ℕ
  added : ℕ
  lastAccessed : ℕ
  size : ℕ
deriving DecidableEq, Repr

/-- The `CacheManager` fields relevant to `get`:
`this.cache`, `this.loadingPromises` (id → in-flight promise), and the
hit/miss counters of `this.stats`. -/
structure CMgr where
  cache : List (ℕ × CacheEntry)
  loadingPromises : List (ℕ × ℕ)
  hits : ℕ
  misses : ℕ
deriving DecidableEq

/-- The value `get(id)` produces at its first suspension point. -/
inductive GetOutcome where
  | pendingPromise : ℕ → GetOutcome
  | cachedContent : ℕ → GetOutcome
  | startedFetch : ℕ → GetOutcome
deriving DecidableEq, Repr

/-- The synchronous segment of `CacheManager.get(id)` (lines 504–530):
if a promise for `id` is in `loadingPromises`, return it; else if `id`
is cached, count a hit, refresh the entry's `lastAccessed`, and return
the cached content; else count a miss, start `fetchContent(id)` (the
third component counts fetches issued: here `1`), and register the fresh
promise under `id`.  `now` is `Date.now()` and `freshPromise` the
identity of the newly created promise. -/
def getStep (s : CMgr) (id now freshPromise : ℕ) : GetOutcome × CMgr × ℕ :=
  match assocGet s.loadingPromises id with
  | some p => (.pendingPromise p, s, 0)
  | none =>
    match assocGet s.cache id with
    | some e =>
      (.cachedContent e.content,
        { s with
          hits := s.hits + 1
          cache := assocSet s.cache id { e with lastAccessed := now } }, 0)
    | none =>
      (.startedFetch freshPromise,
        { s with
          misses := s.misses + 1
          loadingPromises := assocSet s.loadingPromises id freshPromise }, 1)

/-! ### Claim C7 -/

/-- **C7** (confirmed): for an id that is neither cached nor already
being fetched, the first `get(id)` issues exactly one fetch and
registers its promise; a second `get(id)` arriving before that fetch
settles returns the very same in-flight promise, issues no fetch, and
leaves the manager unchanged — so two concurrent `get(id)` calls for an
uncached id perform exactly one underlying fetch. -/
theorem C7_get_dedup (s : CMgr) (id now1 now2 fresh fresh2 : ℕ)
    (hl : assocGet s.loadingPromises id = none)
    (hc : assocGet s.cache id = none) :
    (getStep s id now1 fresh).2.2 = 1 ∧
    (getStep s id now1 fresh).1 = GetOutcome.startedFetch fresh ∧
    getStep ((getStep s id now1 fresh).2.1) id now2 fresh2 =
      (GetOutcome.pendingPromise fresh, (getStep s id now1 fresh).2.1, 0) := by
  have h1 : getStep s id now1 fresh =
      (.startedFetch fresh,
        { s with
          misses := s.misses + 1
          loadingPromises := assocSet s.loadingPromises id fresh }, 1) := by
    simp [getStep, hl, hc]
  refine ⟨by rw [h1], by rw [h1], ?_⟩
  rw [h1]
  simp [getStep, assocGet_assocSet_self]

/-- Witness for `C7_get_dedup`: from the empty cache manager, two
overlapping `get 1` calls: one fetch total, the second call gets the
first call's promise. -/
theorem C7_witness :
    (getStep ⟨[], [], 0, 0⟩ 1 10 100).2.2 = 1 ∧
    (getStep ⟨[], [], 0, 0⟩ 1 10 100).1 = GetOutcome.startedFetch 100 ∧
    getStep ((getStep ⟨[], [], 0, 0⟩ 1 10 100).2.1) 1 11 101 =
      (GetOutcome.pendingPromise 100, (getStep ⟨[], [], 0, 0⟩ 1 10 100).2.1, 0) :=
  C7_get_dedup ⟨[], [], 0, 0⟩ 1 10 11 100 101 rfl rfl

/-! ### Claim C10 -/

/-- A concrete cache entry for the C10 counterexample. -/
def c10Entry : CacheEntry := ⟨42, 0, 0, 1⟩

/-- A reachable manager state in which id `1` is cached *and* a fetch
for id `1` is in flight (promise `7`): e.g. a `get(1)` miss starts a
fetch and suspends, then a preload-driven `set(1, …)` caches the content
before that fetch settles. -/
def c10St : CMgr := ⟨[(1, c10Entry)], [(1, 7)], 0, 0⟩

/-- **C10** counterexample: in `c10St` the id `1` is present in the
cache, yet `get(1)` returns the in-flight promise — not the stored
payload — and modifies nothing (in particular the entry's
`lastAccessed` is not refreshed and no hit is counted), because the
`loadingPromises` check precedes the cache check. -/
theorem C10_counterexample :
    assocGet c10St.cache 1 = some c10Entry ∧
    getStep c10St 1 5 9 = (GetOutcome.pendingPromise 7, c10St, 0) ∧
    GetOutcome.pendingPromise 7 ≠ GetOutcome.cachedContent c10Entry.content := by
  refine ⟨rfl, ?_, by decide⟩
  simp [getStep, c10St, assocGet]

/-- **C10** (amended): for every id present in the cache *with no fetch
for that id in flight*, `get(id)` returns the stored payload and
modifies only that entry's `lastAccessed` timestamp and the hit
counter: no entry is added (the key sequence is unchanged), no fetch is
issued, `loadingPromises` and the miss counter are untouched, and every
other entry is unchanged. -/
theorem C10_amendedTheorem (s : CMgr) (id now fresh : ℕ) (e : CacheEntry)
    (hl : assocGet s.loadingPromises id = none)
    (hc : assocGet s.cache id = some e) :
    (getStep s id now fresh).1 = GetOutcome.cachedContent e.content ∧
    (getStep s id now fresh).2.2 = 0 ∧
    assocGet ((getStep s id now fresh).2.1).cache id =
      some { e with lastAccessed := now } ∧
    (∀ k, k ≠ id →
      assocGet ((getStep s id now fresh).2.1).cache k = assocGet s.cache k) ∧
    ((getStep s id now fresh).2.1).cache.map Prod.fst = s.cache.map Prod.fst ∧
    ((getStep s id now fresh).2.1).loadingPromises = s.loadingPromises ∧
    ((getStep s id now fresh).2.1).hits = s.hits + 1 ∧
    ((getStep s id now fresh).2.1).misses = s.misses := by
  have h1 : getStep s id now fresh =
      (.cachedContent e.content,
        { s with
          hits := s.hits + 1
          cache := assocSet s.cache id { e with lastAccessed := now } }, 0) := by
    simp [getStep, hl, hc]
  rw [h1]
  refine ⟨rfl, rfl, assocGet_assocSet_self _ _ _,
    fun k hk => assocGet_assocSet_ne _ _ _ _ hk,
    assocSet_keys_of_present _ _ _ _ hc, rfl, rfl, rfl⟩

/-- Witness for `C10_amendedTheorem`: a concrete cached, not-in-flight
id: the stored payload comes back and only `lastAccessed`/`hits`
move. -/
theorem C10_witness :
    (getStep ⟨[(1, c10Entry)], [], 3, 4⟩ 1 5 9).1 =
      GetOutcome.cachedContent c10Entry.content ∧
    (getStep ⟨[(1, c10Entry)], [], 3, 4⟩ 1 5 9).2.2 = 0 ∧
    assocGet ((getStep ⟨[(1, c10Entry)], [], 3, 4⟩ 1 5 9).2.1).cache 1 =
      some { c10Entry with lastAccessed := 5 } ∧
    ((getStep ⟨[(1, c10Entry)], [], 3, 4⟩ 1 5 9).2.1).hits = 4 := by
  have h := C10_amendedTheorem ⟨[(1, c10Entry)], [], 3, 4⟩ 1 5 9 c10Entry rfl rfl
  exact ⟨h.1, h.2.1, h.2.2.1, h.2.2.2.2.2.2.1⟩

/-! ### Preload queue drain (`CacheManager.processPreloadQueue`) -/

/-- The state of the `while (batch.size > 0)` loop in
`processPreloadQueue`: the local `batch` set, the manager's
`preloadQueue`, and the log of fetches issued so far. -/
structure DrainSt where
  batch : List ℕ
  preloadQueue : List ℕ
  fetchLog : List ℕ
deriving DecidableEq, Repr

/-- One iteration of the loop body: fetch every id in `batch`
concurrently (each settles, success or failure) and delete each from
`preloadQueue` as it settles; then the inter-batch delay.  The local
`batch` set itself is never mutated and never recomputed inside the
loop. -/
def drainIter (st : DrainSt) : DrainSt :=
  { batch := st.batch
    preloadQueue := st.preloadQueue.filter (fun q => !(st.batch.contains q))
    fetchLog := st.fetchLog ++ st.batch }

/-- The `while (batch.size > 0)` loop with explicit fuel: `some final`
if the loop exits within `fuel` iterations, `none` otherwise. -/
def drainLoop : ℕ → DrainSt → Option DrainSt
  | 0, st => if st.batch.isEmpty then some st else none
  | n + 1, st => if st.batch.isEmpty then some st else drainLoop n (drainIter st)

/-- `getBatch()` (lines 621–633): the first `batchSize` ids of the
queue, in insertion order. -/
def getBatch (batchSize : ℕ) (queue : List ℕ) : List ℕ :=
  queue.take batchSize

/-- `processPreloadQueue()` (lines 580–615): return immediately when
already loading or the queue is empty; otherwise take one batch —
once, before the loop — and run the `while (batch.size > 0)` loop. -/
def processPreloadQueue (batchSize fuel : ℕ) (isLoading : Bool) (queue : List ℕ) :
    Option DrainSt :=
  if isLoading || queue.isEmpty then some ⟨[], queue, []⟩
  else drainLoop fuel ⟨getBatch batchSize queue, queue, []⟩

/-! ### Claim C8 -/

/-- **C8**: the drain does *not* terminate.  The batch is taken from the
queue once, before the loop, and the loop body never shrinks it, so
whenever the initial batch is non-empty — i.e. whenever the queue is
non-empty and the batch size is positive — `drainLoop` exits for no
amount of fuel (each iteration re-fetches the same batch forever),
contradicting the claim that the drain completes once the queue is
empty after fetching each queued id exactly once. -/
theorem C8_drain_diverges :
    (∀ (fuel : ℕ) (st : DrainSt), st.batch ≠ [] → drainLoop fuel st = none) ∧
    (∀ (bs fuel q : ℕ) (qs : List ℕ),
      processPreloadQueue (bs + 1) fuel false (q :: qs) = none) := by
  have hloop : ∀ (fuel : ℕ) (st : DrainSt), st.batch ≠ [] → drainLoop fuel st = none := by
    intro fuel
    induction fuel with
    | zero =>
      intro st hne
      simp [drainLoop, List.isEmpty_iff, hne]
    | succ n ih =>
      intro st hne
      have : st.batch.isEmpty = false := by
        simp [List.isEmpty_iff, hne]
      simp only [drainLoop, this, Bool.false_eq_true, if_false]
      exact ih (drainIter st) hne
  refine ⟨hloop, fun bs fuel q qs => ?_⟩
  simp only [processPreloadQueue, Bool.false_or, List.isEmpty_cons, Bool.false_eq_true,
    if_false]
  exact hloop fuel _ (by simp [getBatch])

/-- Witness for `C8_drain_diverges`: with batch size `10` and the
single queued id `1`, the drain makes no progress for any amount of
fuel — evaluated concretely at fuel `5`. -/
theorem C8_witness :
    drainLoop 5 ⟨[1], [1], []⟩ = none ∧
    processPreloadQueue 10 1000 false [1, 2] = none :=
  ⟨C8_drain_diverges.1 5 ⟨[1], [1], []⟩ (by decide),
    C8_drain_diverges.2 9 1000 1 [2]⟩

/-! ### Display manager (`DisplayManager`) -/

/-- The width/height part of the dimension object computed by
`calculateDimensions` (rationals: the claims only involve exact
percentage comparisons). -/
structure Dims where
  width : ℚ
  height : ℚ
deriving DecidableEq, Repr

/-- The `DisplayManager` fields relevant to resizing:
`this.lastDimensions` and a count of `this.parent.viz.update` calls. -/
structure DispMgr where
  lastDimensions : Option Dims
  updateCount : ℕ
deriving DecidableEq, Repr

/-- `calculateDimensions()` (lines 36–53): compute the dimension object
from the measured container geometry (an external input here), store it
in `this.lastDimensions` (\"Store for comparison\"), and return it. -/
def calculateDimensions (dm : DispMgr) (measured : Dims) : Dims × DispMgr :=
  (measured, { dm with lastDimensions := some measured })

/-- `hasSignificantChanges(newDims)`: `true` when `lastDimensions` is
unset, else whether width or height differs from `lastDimensions` by
more than the `0.01` threshold fraction of the last value. -/
def hasSignificantChanges (dm : DispMgr) (newDims : Dims) : Bool :=
  match dm.lastDimensions with
  | none => true
  | some last =>
    (|newDims.width - last.width| > last.width * (1 / 100)) ||
    (|newDims.height - last.height| > last.height * (1 / 100))

/-- `handleResize()` (lines 213–237, after the debounce): compute
`newDimensions = this.calculateDimensions()` — which already overwrites
`this.lastDimensions` — then re-layout (`viz.update`, counted here) iff
`hasSignificantChanges(newDimensions)`. -/
def handleResize (dm : DispMgr) (measured : Dims) : DispMgr :=
  let r := calculateDimensions dm measured
  if hasSignificantChanges r.2 r.1 then
    { r.2 with updateCount := r.2.updateCount + 1 }
  else r.2

/-! ### Claim C9 -/

/-- **C9**: a resize never triggers a re-layout.  `calculateDimensions`
stores the freshly computed dimensions into `lastDimensions` before
`hasSignificantChanges` runs, so the significance check compares the new
dimensions against themselves and is `false` for any non-negative
dimensions — including the claimed 5% change from 1000px to 1050px — in
contradiction with the claim that changes above 1% trigger
`viz.update`. -/
theorem C9_resize_never_updates (dm : DispMgr) (measured : Dims)
    (hw : 0 ≤ measured.width) (hh : 0 ≤ measured.height) :
    handleResize dm measured = { lastDimensions := some measured
                                 updateCount := dm.updateCount } := by
  have hsig : hasSignificantChanges { dm with lastDimensions := some measured } measured
      = false := by
    simp only [hasSignificantChanges]
    rw [Bool.or_eq_false_iff]
    constructor <;> · rw [decide_eq_false_iff_not]; push_neg; simp; positivity
  simp only [handleResize, calculateDimensions, hsig, Bool.false_eq_true, if_false]

/-- Witness for `C9_resize_never_updates`, at the claim's concrete
scenario: last computed width 1000, container resized so that the new
width is 1050 (a 5% change) — no re-layout happens. -/
theorem C9_witness :
    handleResize ⟨some ⟨1000, 800⟩, 0⟩ ⟨1050, 800⟩ =
      { lastDimensions := some ⟨1050, 800⟩, updateCount := 0 } :=
  C9_resize_never_updates ⟨some ⟨1000, 800⟩, 0⟩ ⟨1050, 800⟩ (by norm_num) (by norm_num)

/-! ### Cache eviction (`CacheManager.set` / `cleanup`) -/

/-- Keys of an association list are pairwise distinct — the `Map`
invariant. -/
def keysNodup (l : List (ℕ × CacheEntry)) : Prop := (l.map Prod.fst).Nodup

/-- The comparator `(a, b) => a.lastAccessed - b.lastAccessed` used by
`cleanup()` to sort entries: ascending `lastAccessed`. -/
def laLE (a b : ℕ × CacheEntry) : Prop := a.2.lastAccessed ≤ b.2.lastAccessed

instance : DecidableRel laLE := fun a b => Nat.decLe a.2.lastAccessed b.2.lastAccessed

instance : IsTotal (ℕ × CacheEntry) laLE :=
  ⟨fun a b => Nat.le_total a.2.lastAccessed b.2.lastAccessed⟩

instance : IsTrans (ℕ × CacheEntry) laLE := ⟨fun _ _ _ hab hbc => Nat.le_trans hab hbc⟩

/-- The `CacheManager` fields relevant to `set`/`cleanup`: the cache and
`this.stats.lastCleanup`. -/
structure CacheSt where
  cache : List (ℕ × CacheEntry)
  lastCleanup : ℕ
deriving DecidableEq

/-- `estimateSize(content)`: the byte size of the JSON serialization,
measured through the external `Blob` API; the measured value plays no
role in any claim, so the external measurement is taken to be the
payload itself. -/
def estimateSize (content : ℕ) : ℕ := content

/-- `shouldCleanup()`: entry count above the configured maximum, or more
than 5 minutes (300000 ms) since the last cleanup. -/
def shouldCleanup (maxSize : ℕ) (st : CacheSt) (now : ℕ) : Bool :=
  maxSize < st.cache.length || 300000 < now - st.lastCleanup

/-- `cleanup()` (lines 705–721): return unchanged if the entry count is
within the maximum; otherwise sort the entries by ascending
`lastAccessed` (JS `sort` is stable), take the first
`size - maxSize` of them, and delete those ids from the cache;
record the cleanup time. -/
def cleanup (maxSize : ℕ) (st : CacheSt) (now : ℕ) : CacheSt :=
  if st.cache.length ≤ maxSize then st
  else
    { cache :=
        (((List.insertionSort laLE st.cache).take (st.cache.length - maxSize)).map
          Prod.fst).foldl assocDelete st.cache
      lastCleanup := now }

/-- `set(id, content)` (lines 537–553): store the entry with
`added`/`lastAccessed` set to `Date.now()` and the estimated size, then
run `cleanup()` if `shouldCleanup()`. -/
def setOp (maxSize : ℕ) (st : CacheSt) (id content now : ℕ) : CacheSt :=
  let st1 : CacheSt :=
    { st with cache := assocSet st.cache id ⟨content, now, now, estimateSize content⟩ }
  if shouldCleanup maxSize st1 now then cleanup maxSize st1 now else st1

/-- A sequence of `set(id, content)` calls at given times. -/
def applySets (maxSize : ℕ) : CacheSt → List (ℕ × ℕ × ℕ) → CacheSt
  | st, [] => st
  | st, (id, content, now) :: ops => applySets maxSize (setOp maxSize st id content now) ops

theorem mem_keys_assocSet {v : CacheEntry} :
    ∀ (l : List (ℕ × CacheEntry)) (id k : ℕ),
      k ∈ (assocSet l id v).map Prod.fst → k ∈ l.map Prod.fst ∨ k = id
  | [], id, k => by simp [assocSet]
  | (k0, w) :: tl, id, k => by
    by_cases h : k0 = id
    · simp only [assocSet, if_pos h, List.map_cons]
      intro hm
      rcases List.mem_cons.1 hm with h1 | h1
      · exact Or.inl (by simp [h1])
      · exact Or.inl (List.mem_cons_of_mem _ h1)
    · simp only [assocSet, if_neg h, List.map_cons]
      intro hm
      rcases List.mem_cons.1 hm with h1 | h1
      · exact Or.inl (by simp [h1])
      · rcases mem_keys_assocSet tl id k h1 with h2 | h2
        · exact Or.inl (List.mem_cons_of_mem _ h2)
        · exact Or.inr h2

theorem keysNodup_assocSet :
    ∀ (l : List (ℕ × CacheEntry)) (id : ℕ) (v : CacheEntry),
      keysNodup l → keysNodup (assocSet l id v)
  | [], id, v, _ => by simp [keysNodup, assocSet]
  | (k0, w) :: tl, id, v, hn => by
    simp only [keysNodup, List.map_cons] at hn
    obtain ⟨hd1, hn1⟩ := List.nodup_cons.1 hn
    by_cases h : k0 = id
    · simp only [keysNodup, assocSet, if_pos h, List.map_cons]
      exact List.nodup_cons.2 ⟨hd1, hn1⟩
    · simp only [keysNodup, assocSet, if_neg h, List.map_cons]
      refine List.nodup_cons.2 ⟨?_, keysNodup_assocSet tl id v hn1⟩
      intro hmem
      rcases mem_keys_assocSet tl id k0 hmem with h1 | h1
      · exact hd1 h1
      · exact h h1

theorem assocDelete_sublist {α : Type} :
    ∀ (l : List (ℕ × α)) (k : ℕ), List.Sublist (assocDelete l k) l
  | [], _ => List.Sublist.refl _
  | (k0, w) :: rest, k => by
    by_cases h : k0 = k
    · simp only [assocDelete, if_pos h]
      exact List.Sublist.cons (k0, w) (List.Sublist.refl rest)
    · simpa [assocDelete, h] using List.Sublist.cons₂ (k0, w) (assocDelete_sublist rest k)

theorem foldl_assocDelete_sublist {α : Type} :
    ∀ (ks : List ℕ) (l : List (ℕ × α)), List.Sublist (ks.foldl assocDelete l) l
  | [], l => List.Sublist.refl l
  | k :: ks, l => by
    simp only [List.foldl_cons]
    exact (foldl_assocDelete_sublist ks (assocDelete l k)).trans (assocDelete_sublist l k)

theorem keysNodup_sublist {l l' : List (ℕ × CacheEntry)} (hs : List.Sublist l' l)
    (hn : keysNodup l) : keysNodup l' :=
  List.Nodup.sublist (hs.map Prod.fst) hn

theorem keysNodup_cleanup (maxSize now : ℕ) (st : CacheSt) (hn : keysNodup st.cache) :
    keysNodup (cleanup maxSize st now).cache := by
  unfold cleanup
  by_cases h : st.cache.length ≤ maxSize
  · simpa [h]
  · simp only [h, if_false]
    exact keysNodup_sublist (foldl_assocDelete_sublist _ _) hn

theorem keysNodup_setOp (maxSize : ℕ) (st : CacheSt) (id content now : ℕ)
    (hn : keysNodup st.cache) : keysNodup (setOp maxSize st id content now).cache := by
  unfold setOp
  by_cases h : shouldCleanup maxSize
      { st with cache := assocSet st.cache id ⟨content, now, now, estimateSize content⟩ } now
  · simp only [h, if_true]
    exact keysNodup_cleanup _ _ _ (keysNodup_assocSet _ _ _ hn)
  · simp only [h, Bool.false_eq_true, if_false]
    exact keysNodup_assocSet _ _ _ hn

theorem keysNodup_applySets (maxSize : ℕ) :
    ∀ (ops : List (ℕ × ℕ × ℕ)) (st : CacheSt), keysNodup st.cache →
      keysNodup (applySets maxSize st ops).cache
  | [], _, hn => hn
  | (id, content, now) :: ops, st, hn =>
    keysNodup_applySets maxSize ops _ (keysNodup_setOp maxSize st id content now hn)

theorem assocDelete_eq_filter :
    ∀ (l : List (ℕ × CacheEntry)) (k : ℕ), keysNodup l →
      assocDelete l k = l.filter (fun e => !(e.1 == k))
  | [], _, _ => rfl
  | (k0, w) :: tl, k, hn => by
    simp only [keysNodup, List.map_cons] at hn
    obtain ⟨hd1, hn1⟩ := List.nodup_cons.1 hn
    by_cases h : k0 = k
    · subst h
      have hfe : List.filter (fun e => !(e.1 == k0)) tl = tl := by
        rw [List.filter_eq_self]
        intro e he
        have hmem : e.1 ∈ tl.map Prod.fst := List.mem_map_of_mem Prod.fst he
        have hne : e.1 ≠ k0 := fun hc => hd1 (hc ▸ hmem)
        simp [hne]
      simp [assocDelete, List.filter_cons, hfe]
    · have hrec := assocDelete_eq_filter tl k hn1
      simp [assocDelete, h, List.filter_cons, hrec]

theorem foldl_assocDelete_eq_filter :
    ∀ (ks : List ℕ) (l : List (ℕ × CacheEntry)), keysNodup l →
      ks.foldl assocDelete l = l.filter (fun e => !(ks.contains e.1))
  | [], l, _ => by
    simp only [List.foldl_nil]
    symm
    rw [List.filter_eq_self]
    intro e _
    simp [List.contains]
  | k :: ks, l, hn => by
    simp only [List.foldl_cons]
    have hn2 : keysNodup (assocDelete l k) :=
      keysNodup_sublist (assocDelete_sublist l k) hn
    rw [foldl_assocDelete_eq_filter ks (assocDelete l k) hn2,
      assocDelete_eq_filter l k hn, List.filter_filter]
    refine List.filter_congr ?_
    intro e _
    show ((!(ks.contains e.1)) && (!(e.1 == k))) = (!((k :: ks).contains e.1))
    rw [List.contains_cons, Bool.not_or, Bool.and_comm]

theorem eq_of_keysNodup :
    ∀ (l : List (ℕ × CacheEntry)), keysNodup l →
      ∀ (a b : ℕ × CacheEntry), a ∈ l → b ∈ l → a.1 = b.1 → a = b
  | [], _, a, _, ha, _, _ => absurd ha (List.not_mem_nil a)
  | hd :: tl, hn, a, b, ha, hb, hk => by
    simp only [keysNodup, List.map_cons] at hn
    obtain ⟨hd1, hn1⟩ := List.nodup_cons.1 hn
    rcases List.mem_cons.1 ha with h1 | h1 <;> rcases List.mem_cons.1 hb with h2 | h2
    · rw [h1, h2]
    · have hmem : b.1 ∈ tl.map Prod.fst := List.mem_map_of_mem Prod.fst h2
      rw [← hk, h1] at hmem
      exact absurd hmem hd1
    · have hmem : a.1 ∈ tl.map Prod.fst := List.mem_map_of_mem Prod.fst h1
      rw [hk, h2] at hmem
      exact absurd hmem hd1
    · exact eq_of_keysNodup tl hn1 a b h1 h2 hk

/-- The full behavioural specification of `cleanup()` on a cache with
the `Map` key invariant: the resulting entry count is
`min (size, maxSize)`; only existing entries are kept; and every evicted
entry has a `lastAccessed` no later than that of every kept entry
(least-recently-used eviction). -/
theorem cleanup_spec (maxSize now : ℕ) (st : CacheSt) (hn : keysNodup st.cache) :
    (cleanup maxSize st now).cache.length = min st.cache.length maxSize ∧
    (∀ f ∈ (cleanup maxSize st now).cache, f ∈ st.cache) ∧
    (∀ e ∈ st.cache, e ∉ (cleanup maxSize st now).cache →
      ∀ f ∈ (cleanup maxSize st now).cache,
        e.2.lastAccessed ≤ f.2.lastAccessed) := by
  by_cases hle : st.cache.length ≤ maxSize
  · have hid : cleanup maxSize st now = st := by simp [cleanup, hle]
    rw [hid]
    exact ⟨(min_eq_left hle).symm, fun f hf => hf, fun e he hne _ _ => absurd he hne⟩
  · have hlt : maxSize < st.cache.length := not_le.1 hle
    have hperm : List.Perm (List.insertionSort laLE st.cache) st.cache :=
      List.perm_insertionSort laLE st.cache
    have hsorted : List.Sorted laLE (List.insertionSort laLE st.cache) :=
      List.sorted_insertionSort laLE st.cache
    generalize hE : List.insertionSort laLE st.cache = entries at hperm hsorted
    have hclean : (cleanup maxSize st now).cache =
        ((entries.take (st.cache.length - maxSize)).map Prod.fst).foldl
          assocDelete st.cache := by
      simp [cleanup, hle, hE]
    have hfilter : (cleanup maxSize st now).cache =
        st.cache.filter (fun e =>
          !(((entries.take (st.cache.length - maxSize)).map Prod.fst).contains e.1)) := by
      rw [hclean]
      exact foldl_assocDelete_eq_filter _ st.cache hn
    have hnE : keysNodup entries := by
      have := (hperm.map Prod.fst).nodup_iff
      exact this.2 hn
    have hsplit : entries.take (st.cache.length - maxSize) ++
        entries.drop (st.cache.length - maxSize) = entries :=
      List.take_append_drop _ entries
    have hkeysnd : ((entries.take (st.cache.length - maxSize)).map Prod.fst ++
        (entries.drop (st.cache.length - maxSize)).map Prod.fst).Nodup := by
      rw [← List.map_append, hsplit]
      exact hnE
    have hdisj : ∀ a ∈ entries.drop (st.cache.length - maxSize),
        a.1 ∉ (entries.take (st.cache.length - maxSize)).map Prod.fst := by
      intro a ha hmem
      exact (List.disjoint_of_nodup_append hkeysnd) hmem (List.mem_map_of_mem Prod.fst ha)
    set K := (entries.take (st.cache.length - maxSize)).map Prod.fst with hK
    have hA : (entries.take (st.cache.length - maxSize)).filter
        (fun e => !(K.contains e.1)) = [] := by
      rw [List.filter_eq_nil_iff]
      intro a ha
      have hmem : a.1 ∈ K := by
        rw [hK]
        exact List.mem_map_of_mem Prod.fst ha
      simpa [List.contains] using hmem
    have hB : (entries.drop (st.cache.length - maxSize)).filter
        (fun e => !(K.contains e.1)) =
        entries.drop (st.cache.length - maxSize) := by
      rw [List.filter_eq_self]
      intro a ha
      have hna := hdisj a ha
      simpa [List.contains] using hna
    have hfperm : List.Perm ((cleanup maxSize st now).cache)
        (entries.drop (st.cache.length - maxSize)) := by
      rw [hfilter]
      have h1 := (List.Perm.filter (fun e => !(K.contains e.1)) hperm).symm
      have h2 : entries.filter (fun e => !(K.contains e.1)) =
          entries.drop (st.cache.length - maxSize) := by
        conv_lhs => rw [← hsplit]
        rw [List.filter_append, hA, hB, List.nil_append]
      rw [h2] at h1
      exact h1
    refine ⟨?_, ?_, ?_⟩
    · rw [hfperm.length_eq, List.length_drop, hperm.length_eq]
      omega
    · intro f hf
      rw [hfilter] at hf
      exact List.mem_of_mem_filter hf
    · intro e he hne f hf
      have hef : e.1 ∈ K := by
        by_contra hnot
        apply hne
        rw [hfilter]
        refine List.mem_filter.2 ⟨he, ?_⟩
        simpa [List.contains] using hnot
      rw [hK] at hef
      rcases List.mem_map.1 hef with ⟨b, hb, hbk⟩
      have hbe : b ∈ entries := hsplit ▸ List.mem_append_left _ hb
      have hee : e ∈ entries := hperm.mem_iff.2 he
      have heb : b = e := eq_of_keysNodup entries hnE b e hbe hee hbk
      have hetake : e ∈ entries.take (st.cache.length - maxSize) := heb ▸ hb
      have hfd : f ∈ entries.drop (st.cache.length - maxSize) := hfperm.mem_iff.1 hf
      have hpw : ∀ a ∈ entries.take (st.cache.length - maxSize),
          ∀ b ∈ entries.drop (st.cache.length - maxSize), laLE a b := by
        have hs2 : List.Pairwise laLE (entries.take (st.cache.length - maxSize) ++
            entries.drop (st.cache.length - maxSize)) := by
          rw [hsplit]
          exact hsorted
        exact (List.pairwise_append.1 hs2).2.2
      exact hpw e hetake f hfd

/-! ### Claim C6 -/

/-- **C6** (confirmed): after any sequence of `set(id, payload)` calls
(starting from the empty cache), once `cleanup()` has run the cache
holds `min (size, maxSize)` entries — hence at most the configured
maximum — every kept entry is one of the existing entries, and every
entry removed by the cleanup has a `lastAccessed` no later than that of
every kept entry (the evicted entries are exactly the
least-recently-used ones, up to ties, until the count is back at the
maximum). -/
theorem C6_cleanup_lru (maxSize t0 now : ℕ) (ops : List (ℕ × ℕ × ℕ)) :
    (cleanup maxSize (applySets maxSize ⟨[], t0⟩ ops) now).cache.length =
      min (applySets maxSize ⟨[], t0⟩ ops).cache.length maxSize ∧
    (cleanup maxSize (applySets maxSize ⟨[], t0⟩ ops) now).cache.length ≤ maxSize ∧
    (∀ f ∈ (cleanup maxSize (applySets maxSize ⟨[], t0⟩ ops) now).cache,
      f ∈ (applySets maxSize ⟨[], t0⟩ ops).cache) ∧
    (∀ e ∈ (applySets maxSize ⟨[], t0⟩ ops).cache,
      e ∉ (cleanup maxSize (applySets maxSize ⟨[], t0⟩ ops) now).cache →
      ∀ f ∈ (cleanup maxSize (applySets maxSize ⟨[], t0⟩ ops) now).cache,
        e.2.lastAccessed ≤ f.2.lastAccessed) := by
  have hn : keysNodup (applySets maxSize ⟨[], t0⟩ ops).cache :=
    keysNodup_applySets maxSize ops ⟨[], t0⟩ (by simp [keysNodup])
  obtain ⟨h1, h2, h3⟩ := cleanup_spec maxSize now (applySets maxSize ⟨[], t0⟩ ops) hn
  exact ⟨h1, by rw [h1]; exact min_le_right _ _, h2, h3⟩

/-- Witness for `C6_cleanup_lru`: `maxSize = 2`, ids `10, 11, 12` set at
times `0, 1, 3`; the third `set` already evicts the
least-recently-accessed id `10`, and once `cleanup()` has run the cache
holds `min(2, 2) = 2` entries. -/
theorem C6_witness :
    (cleanup 2 (applySets 2 ⟨[], 0⟩ [(10, 100, 0), (11, 101, 1), (12, 102, 3)]) 4).cache.length
      = 2 := by
  have h := (C6_cleanup_lru 2 0 4 [(10, 100, 0), (11, 101, 1), (12, 102, 3)]).1
  rw [h]
  decide

end CircNav
